import Mathlib

/-!
Shallow embedding of the RePlay MP3 player (`src/main.py`) and proofs about
its playlist / playback-controller state machine.

Modelling conventions:
* The Python `playlist` dict (int keys, insertion-ordered) is an ordered
  association list `List (ℕ × Track)`; `dict.get` / `dict[k] = v` become
  `dget` / `dictSet`.
* The `now_playing` dict holds at most one pair in every program path
  (it is always `.clear()`-ed before an entry is stored), so it is an
  `Option (ℕ × Track)`.
* Calls on the pygame mixer and writes of `settings.json` are recorded in
  an append-only command log `cmds`.
* Tk timer handles (`self.updater`, `self.repeater`, `self.volume_updater`)
  are booleans saying whether the callback is currently scheduled;
  `after_cancel` sets the flag to false, `after(1000, ...)` to true.
* Python floats (track durations, seek-bar coordinates) are modelled as
  exact rationals `ℚ`; Python `int` is `ℤ` (or `ℕ` where the source value
  is provably non-negative).
* A Python exception escaping the modelled code is `Option.none`
  (`TinyTag.get` raising, `KeyError`, `IndexError`, `ValueError`,
  `TypeError`, `StopIteration`).
* File paths are opaque strings; the `as_posix().replace("/", "\x5c\x5c")`
  normalisation is the identity on the already-normalised strings the
  program stores, so it is dropped.
-/

namespace RePlay

/-- Repeat modes (`class Repeat(Enum)`, main.py:71). -/
inductive RepeatMode where
  | off
  | one
  | all
deriving DecidableEq

/-- The image currently shown on the play/pause button. -/
inductive Icon where
  | play
  | pause
deriving DecidableEq

/-- Commands sent to the pygame mixer, plus settings-file writes. -/
inductive Cmd where
  | load (path : String)
  | play
  | pause
  | unpause
  | stop
  | unload
  | setVolume (v : ℚ)
  | setPos (sec : ℕ)
  | writeSettings (volume : ℤ)
deriving DecidableEq

/-- Decoded metadata returned by `TinyTag.get` for one file.
`artwork` records whether embedded image bytes are present. -/
structure TrackMeta where
  title : Option String
  artist : Option String
  album : Option String
  duration : ℚ
  artwork : Bool
deriving DecidableEq

/-- One playlist entry (the per-track dict built by `populate_track_info`,
main.py:366).  The `coordinates` seek map stored in the dict is a pure
function of `duration` (see `coordinate_ranges`), so it is recomputed at
its single use site instead of being stored. -/
structure Track where
  path : String
  title : Option String
  artist : Option String
  album : Option String
  duration : ℚ
  artwork : Bool
deriving DecidableEq

/-- The mutable state of the `Player` object (class attributes,
main.py:140-156, plus the mixer/settings effect log). -/
structure PlayerState where
  playlist : List (ℕ × Track)
  nowPlaying : Option (ℕ × Track)
  existing_tracks : List String
  repeatMode : RepeatMode
  volume : ℤ
  is_muted : Bool
  mutedIcon : Bool
  is_playing : Bool
  show_artwork : Bool
  track_progress : ℕ
  track_duration : ℚ
  posDisplay : ℕ
  icon : Icon
  updaterActive : Bool
  repeaterActive : Bool
  volumeUpdaterActive : Bool
  selected_index : Option ℤ
  can_shuffle : Bool
  can_reorder : Bool
  can_edit : Bool
  cmds : List Cmd
deriving DecidableEq

/-- `playlist.get(k)` on the ordered dict.  The key may be a negative
Python int (e.g. `index - 1` in `restart`), which is never present. -/
def dget (pl : List (ℕ × Track)) (k : ℤ) : Option Track :=
  (pl.find? (fun p => (p.1 : ℤ) = k)).map (fun p => p.2)

/-- `playlist[k] = v`: update in place if the key exists (dicts keep the
original insertion position), else append. -/
def dictSet (pl : List (ℕ × Track)) (k : ℕ) (v : Track) : List (ℕ × Track) :=
  if pl.any (fun p => p.1 = k) then
    pl.map (fun p => if p.1 = k then (p.1, v) else p)
  else pl ++ [(k, v)]

/-- In-place value update used for `playlist.update({...})` in
`swap_track_index` and for `random.shuffle`'s item assignment; at those
call sites the key has just been read successfully, so it exists. -/
def dictUpdate (pl : List (ℕ × Track)) (k : ℤ) (v : Track) : List (ℕ × Track) :=
  pl.map (fun p => if (p.1 : ℤ) = k then (p.1, v) else p)

/-- The dict `{i : ts[i] for i}` with dense keys starting at `i`. -/
def enumTracks (i : ℕ) : List Track → List (ℕ × Track)
  | [] => []
  | t :: rest => (i, t) :: enumTracks (i + 1) rest

/-- File-extension allow-list (`file.suffix in [".mp3", ".wav", ".ogg"]`),
as a character-list suffix test so that it evaluates by kernel reduction. -/
def isAudio (p : String) : Bool :=
  ".mp3".data.isSuffixOf p.data || ".wav".data.isSuffixOf p.data ||
    ".ogg".data.isSuffixOf p.data

/-- `set_to_default` (main.py:656): cancel the repeater, zero the progress
state and reset the displayed position and play/pause affordance. -/
def set_to_default (s : PlayerState) : PlayerState :=
  { s with repeaterActive := false
           track_progress := 0
           track_duration := 0
           icon := Icon.play
           posDisplay := 0 }

/-- Loop body of `reorder_now_playing` (main.py:633-648): walk the
snapshot of the old playlist, re-keying entries densely from 0 and
re-resolving `now_playing` by value equality against each entry. -/
def reorder_loop : List (ℕ × Track) → ℕ → PlayerState → PlayerState
  | [], _, s => s
  | (_, value) :: rest, track_index, s =>
    let s :=
      match s.nowPlaying with
      | some (_, npi) =>
          if value = npi then { s with nowPlaying := some (track_index, npi) } else s
      | none => s
    reorder_loop rest (track_index + 1) { s with playlist := dictSet s.playlist track_index value }

/-- `reorder_now_playing` (main.py:627): rebuild the playlist with dense
keys `0..n-1`; if the playlist came out empty while a track was marked
now-playing, clear it, reset the UI and stop the mixer. -/
def reorder_now_playing (s : PlayerState) : PlayerState :=
  let snapshot := s.playlist
  let s := reorder_loop snapshot 0 { s with playlist := [] }
  if s.playlist.length = 0 ∧ s.nowPlaying ≠ none then
    let s := set_to_default { s with nowPlaying := none }
    { s with cmds := s.cmds ++ [Cmd.unload, Cmd.stop] }
  else s

/-- Python's banker's rounding `round()` on a rational: nearest integer,
ties to the even one. -/
def pyRound (q : ℚ) : ℤ :=
  let f := Int.floor q
  let frac := q - f
  if frac < 1 / 2 then f
  else if 1 / 2 < frac then f + 1
  else if Even f then f else f + 1

/-- Seek-map construction loop (main.py:357-364): running `start`/`end`
markers advancing by `w = 396 / duration` per segment. -/
def seekSegsAux (w : ℚ) : ℕ → ℕ → ℚ → ℚ → List (ℕ × ℚ × ℚ)
  | 0, _, _, _ => []
  | n + 1, seg, start, stop =>
    (seg, start, stop) :: seekSegsAux w n (seg + 1) stop (stop + w)

/-- The `coordinate_ranges` dict built in `populate_track_info` for a track
of duration `d`: `round(d)` segments of width `396 / d`. -/
def coordinate_ranges (d : ℚ) : List (ℕ × ℚ × ℚ) :=
  seekSegsAux (396 / d) (pyRound d).toNat 0 0 (396 / d)

/-- `populate_track_info` (main.py:327): decode the file (a decode failure
raises, `none`), reject duplicates (returns the unchanged playlist and no
index), else record the path and append the track at key `len(playlist)`.
`shutil.copy2` into the configured directory raises `SameFileError` for the
already-in-directory paths this model feeds it, leaving the path unchanged. -/
def populate_track_info (decode : String → Option TrackMeta) (path : String)
    (pl : List (ℕ × Track)) (tracks : List String) :
    Option (List (ℕ × Track) × List String × Option ℕ) :=
  let index := pl.length
  match decode path with
  | none => none
  | some meta =>
    if pl.any (fun p => p.2.path = path) then some (pl, tracks, none)
    else
      let tracks := if path ∈ tracks then tracks else tracks ++ [path]
      let track : Track :=
        { path := path, title := meta.title, artist := meta.artist,
          album := meta.album, duration := meta.duration, artwork := meta.artwork }
      some (dictSet pl index track, tracks, some index)

/-- `add_existing_tracks` (main.py:772): scan the directory listing; for
each audio file call `populate_track_info` and build the listbox string
`f"{index + 1}. ..."`.  A decode failure raises out of the loop; a
duplicate makes `index` `None` so `index + 1` raises `TypeError`. -/
def add_existing_tracks (decode : String → Option TrackMeta) :
    List String → List (ℕ × Track) → List String →
    Option (List (ℕ × Track) × List String)
  | [], pl, tracks => some (pl, tracks)
  | f :: rest, pl, tracks =>
    if isAudio f then
      match populate_track_info decode f pl tracks with
      | none => none
      | some (_, _, none) => none
      | some (pl, tracks, some _) => add_existing_tracks decode rest pl tracks
    else add_existing_tracks decode rest pl tracks

/-- Inner loop of the watchdog's removal branch (main.py:802-806): walk a
snapshot of the playlist; every entry whose path is the vanished file is
popped and the path is removed from `existing_tracks` (`list.remove`
raises `ValueError` if the path is already gone: `none`). -/
def wd_pop_hits : List (ℕ × Track) → String → List String → List (ℕ × Track) → Bool →
    Option (List String × List (ℕ × Track) × Bool)
  | [], _, tracks, pl, upd => some (tracks, pl, upd)
  | (key, value) :: rest, file, tracks, pl, upd =>
    if value.path = file then
      if file ∈ tracks then
        wd_pop_hits rest file (tracks.erase file) (pl.filter (fun p => p.1 ≠ key)) true
      else none
    else wd_pop_hits rest file tracks pl upd

/-- Outer loop of the watchdog's removal branch (main.py:799-806):
`for file in self.existing_tracks` while the body mutates that list, so
iterate by position exactly as a Python list iterator does.  The fuel is
the initial list length, an upper bound on the number of iterations
(the cursor advances every step and the list never grows). -/
def wd_remove_loop (files : List String) :
    ℕ → ℕ → List String → List (ℕ × Track) → Bool →
    Option (List String × List (ℕ × Track) × Bool)
  | 0, _, tracks, pl, upd => some (tracks, pl, upd)
  | fuel + 1, i, tracks, pl, upd =>
    if h : i < tracks.length then
      let file := tracks.get ⟨i, h⟩
      if file ∈ files then wd_remove_loop files fuel (i + 1) tracks pl upd
      else
        match wd_pop_hits pl file tracks pl upd with
        | none => none
        | some (tracks, pl, upd) => wd_remove_loop files fuel (i + 1) tracks pl upd
    else some (tracks, pl, upd)

/-- Addition branch of the watchdog (main.py:809-813): try to add every
listed file that is not yet tracked; `update_tracks` is set whether or not
`populate_track_info` actually added. -/
def wd_add_loop (decode : String → Option TrackMeta) :
    List String → List (ℕ × Track) → List String → Bool →
    Option (List (ℕ × Track) × List String × Bool)
  | [], pl, tracks, upd => some (pl, tracks, upd)
  | f :: rest, pl, tracks, upd =>
    if f ∈ tracks then wd_add_loop decode rest pl tracks upd
    else
      match populate_track_info decode f pl tracks with
      | none => none
      | some (pl, tracks, _) => wd_add_loop decode rest pl tracks true

/-- One `watchdog` tick (main.py:782): list the directory (`listing`),
filter by extension, compare the set sizes against the recorded set
(`set(...)` sizes are `dedup.length`), run the removal or addition branch,
and re-render via `reorder_now_playing` iff anything changed. -/
def watchdog_tick (decode : String → Option TrackMeta) (listing : List String)
    (s : PlayerState) : Option PlayerState :=
  let files := listing.filter (fun f => isAudio f)
  let oldCard := s.existing_tracks.dedup.length
  let newCard := files.dedup.length
  if newCard < oldCard then
    match wd_remove_loop files s.existing_tracks.length 0 s.existing_tracks s.playlist false with
    | none => none
    | some (tracks, pl, upd) =>
      let s := { s with existing_tracks := tracks, playlist := pl }
      some (if upd then reorder_now_playing s else s)
  else if oldCard < newCard then
    match wd_add_loop decode files s.playlist s.existing_tracks false with
    | none => none
    | some (pl, tracks, upd) =>
      let s := { s with playlist := pl, existing_tracks := tracks }
      some (if upd then reorder_now_playing s else s)
  else some s

/-- `updating_volume` (main.py:573): debounced settings write; while a
write is in flight (`can_edit = false`) re-arm a 15 s retry instead. -/
def updating_volume (s : PlayerState) : PlayerState :=
  let s := { s with volumeUpdaterActive := false }
  if s.can_edit then
    { s with cmds := s.cmds ++ [Cmd.writeSettings s.volume], can_edit := true }
  else { s with volumeUpdaterActive := true }

/-- `toggle_mute` (main.py:279). -/
def toggle_mute (s : PlayerState) : PlayerState :=
  if ¬ s.is_muted then
    { s with is_muted := true, mutedIcon := true, cmds := s.cmds ++ [Cmd.setVolume 0] }
  else
    { s with is_muted := false, mutedIcon := false,
             cmds := s.cmds ++ [Cmd.setVolume ((s.volume : ℚ) / 100)] }

/-- `adjust_volume` (main.py:596), the slider's `set_volume(v)`: store the
value, set the muted appearance for `v == 0`, clear it for `v > 1`, and
forward `volume / 100` to the mixer unconditionally. -/
def adjust_volume (value : ℤ) (s : PlayerState) : PlayerState :=
  let s := { s with volume := value }
  let s :=
    if s.volume = 0 then { s with is_muted := true, mutedIcon := true }
    else if 1 < s.volume then { s with is_muted := false, mutedIcon := false }
    else s
  let s := { s with cmds := s.cmds ++ [Cmd.setVolume ((s.volume : ℚ) / 100)] }
  updating_volume s

/-- The last volume value actually forwarded to the playback device. -/
def lastSetVolume (cmds : List Cmd) : Option ℚ :=
  cmds.foldl (fun a c => match c with | Cmd.setVolume q => some q | _ => a) none

/-- Scan of the seek map in `set_track_position` (main.py:691-695): every
sub-range containing `x` overwrites the progress and issues `set_pos`;
the last containing sub-range wins. -/
def seekScan (ranges : List (ℕ × ℚ × ℚ)) (x : ℚ) (progress : ℕ) (cmds : List Cmd) :
    ℕ × List Cmd :=
  ranges.foldl
    (fun pc r =>
      if r.2.1 ≤ x ∧ x ≤ r.2.2 then (r.1, pc.2 ++ [Cmd.setPos r.1]) else pc)
    (progress, cmds)

/-- `set_track_position` (main.py:683): only in-bounds clicks with a track
loaded consult the seek map; when paused the position display is synced. -/
def set_track_position (x : ℚ) (s : PlayerState) : PlayerState :=
  let s :=
    match s.nowPlaying with
    | some (_, t) =>
      if 0 ≤ x ∧ x ≤ 396 then
        let r := seekScan (coordinate_ranges t.duration) x s.track_progress s.cmds
        { s with track_progress := r.1, cmds := r.2 }
      else s
    | none => s
  if ¬ s.is_playing then { s with posDisplay := s.track_progress } else s

mutual

/-- `update_playing_track` (main.py:388): cancel the progress updater,
install the new now-playing pair, reset progress, re-render the ordered
view, show the pause affordance, run one progress tick, then load and play
the file (3 s fade).  The `fuel` argument bounds the Python call stack:
`update_playing_track → update_track_progress → next → update_playing_track`
can recurse (e.g. on non-positive durations), and `none` models a call
that did not return normally. -/
def update_playing_track : ℕ → ℕ → Track → PlayerState → Option PlayerState
  | 0, _, _, _ => none
  | fuel + 1, index, info, s =>
    let s := { s with updaterActive := false
                      nowPlaying := some (index, info)
                      track_duration := info.duration
                      track_progress := 0
                      is_playing := true }
    let s := reorder_now_playing s
    let s := { s with icon := Icon.pause
                      show_artwork := if info.artwork then true else s.show_artwork }
    match update_track_progress fuel s with
    | none => none
    | some s => some { s with cmds := s.cmds ++ [Cmd.load info.path, Cmd.play] }

/-- `update_track_progress` (main.py:306): the one-second progress clock.
Cancels the idle repeater; while playing it either advances the elapsed
counter and re-arms the updater, or — once elapsed reaches the duration —
fires `next(finished=True)`; while not playing it re-arms the idle poll. -/
def update_track_progress : ℕ → PlayerState → Option PlayerState
  | 0, _ => none
  | fuel + 1, s =>
    let s := { s with repeaterActive := false }
    if s.is_playing then
      if (s.track_progress : ℚ) < s.track_duration then
        some { s with track_progress := s.track_progress + 1
                      posDisplay := s.track_progress + 1
                      updaterActive := true }
      else next fuel true s
    else some { s with repeaterActive := true }

/-- `play` (main.py:378): reload the now-playing track, else start at
index 0 when any tracks exist (`self.playlist[0]` raises `KeyError` if
key 0 is missing), else do nothing. -/
def play : ℕ → PlayerState → Option PlayerState
  | 0, _ => none
  | fuel + 1, s =>
    match s.nowPlaying with
    | some (index, info) => update_playing_track fuel index info s
    | none =>
      if s.existing_tracks ≠ [] then
        match dget s.playlist 0 with
        | some t0 => update_playing_track fuel 0 t0 s
        | none => none
      else some s

/-- `next` (main.py:466).  With nothing loaded it delegates to `play`.
With RepeatMode ONE and the track fully elapsed it reloads the same track.
Otherwise it advances to `index + 1` if that key exists; if not, with
RepeatMode OFF and `finished` it resets the affordance and cancels the
updater, else it wraps to index 0 when the last key is `≥ index`
(`list(self.playlist)[-1]` raises on an empty playlist, `playlist[0]`
raises if key 0 is missing), else it falls back to `play`. -/
def next : ℕ → Bool → PlayerState → Option PlayerState
  | 0, _, _ => none
  | fuel + 1, finished, s =>
    match s.nowPlaying with
    | none => play fuel s
    | some (index, info) =>
      let track_info := dget s.playlist ((index : ℤ) + 1)
      if s.repeatMode = RepeatMode.one ∧ s.track_duration ≤ (s.track_progress : ℚ) then
        update_playing_track fuel index info s
      else
        match track_info with
        | none =>
          let s := { s with nowPlaying := none }
          if s.repeatMode = RepeatMode.off ∧ finished = true then
            some { s with icon := Icon.play, updaterActive := false }
          else
            match (s.playlist.map Prod.fst).getLast? with
            | none => none
            | some last =>
              if index ≤ last then
                match dget s.playlist 0 with
                | some t0 => update_playing_track fuel 0 t0 s
                | none => none
              else play fuel s
        | some t => update_playing_track fuel (index + 1) t { s with nowPlaying := none }

end

/-- `restart` (main.py:433): past 2 s of progress, reload the current
track from the beginning; otherwise go to the previous key if it exists,
else (guarded by the always-true `index <= index`) wrap to the last key.
With nothing loaded `get_now_playing` raises `StopIteration`. -/
def restart (fuel : ℕ) (s : PlayerState) : Option PlayerState :=
  match s.nowPlaying with
  | none => none
  | some (index, info) =>
    if 2 < s.track_progress then
      update_playing_track fuel index info s
    else
      let track_info := dget s.playlist ((index : ℤ) - 1)
      match (s.playlist.map Prod.fst).getLast? with
      | none => none
      | some last_index =>
        match track_info with
        | none =>
          let s := { s with nowPlaying := none }
          if (index : ℤ) ≤ (index : ℤ) then
            match dget s.playlist (last_index : ℤ) with
            | some t => update_playing_track fuel last_index t s
            | none => none
          else play fuel s
        | some t => update_playing_track fuel (index - 1) t { s with nowPlaying := none }

/-- `previous` (main.py:457): `play` when nothing is loaded, else the
previous-track logic shared with `restart`. -/
def previous (fuel : ℕ) (s : PlayerState) : Option PlayerState :=
  match s.nowPlaying with
  | none => play fuel s
  | some _ => restart fuel s

/-- `select_track` (main.py:701): record the clicked row (Tk's
`Listbox.nearest` yields `-1` on an empty listbox, hence `ℤ`). -/
def select_track (index : ℤ) (s : PlayerState) : PlayerState :=
  { s with selected_index := some index }

/-- `swap_track_index` (main.py:711): drag-to-reorder.  Guarded by the
`can_reorder` flag; exchanges the values stored at the drop key and the
previously selected key (both dict reads raise `KeyError` when the key is
absent, and comparing with an unset `selected_index = None` raises
`TypeError`), then re-renders. -/
def swap_track_index (index : ℤ) (s : PlayerState) : Option PlayerState :=
  if ¬ s.can_reorder then some s
  else
    let s := { s with can_reorder := false }
    match s.selected_index with
    | none => none
    | some sel =>
      if index < sel ∨ sel < index then
        match dget s.playlist sel, dget s.playlist index with
        | some vSel, some vIdx =>
          let pl := dictUpdate (dictUpdate s.playlist index vSel) sel vIdx
          let s := { s with playlist := pl, selected_index := some index }
          some { reorder_now_playing s with can_reorder := true }
        | _, _ => none
      else some { s with can_reorder := true }

/-- The swap loop of `random.shuffle` run on the playlist dict
(main.py:532): for `i` from `len - 1` down to `1`, exchange the values at
keys `i` and `j` for some `j ≤ i` (the `js` stream supplies the random
draws; item access on a missing key raises). -/
def pyShuffleLoop : List ℕ → ℕ → List (ℕ × Track) → Option (List (ℕ × Track))
  | _, 0, pl => some pl
  | js, i + 1, pl =>
    let j := js.headD 0 % (i + 2)
    match dget pl ((i : ℤ) + 1), dget pl (j : ℤ) with
    | some xi, some xj =>
      pyShuffleLoop js.tail i (dictUpdate (dictUpdate pl ((i : ℤ) + 1) xj) (j : ℤ) xi)
    | _, _ => none

/-- `shuffle_tracks` (main.py:525): re-entrancy-guarded shuffle of the
playlist values followed by a re-render. -/
def shuffle_tracks (js : List ℕ) (s : PlayerState) : Option PlayerState :=
  if ¬ s.can_shuffle then some s
  else
    let s := { s with can_shuffle := false }
    match pyShuffleLoop js (s.playlist.length - 1) s.playlist with
    | none => none
    | some pl =>
      some { reorder_now_playing { s with playlist := pl } with can_shuffle := true }

/-- The playlist-mutating operations of the claim "add / remove / reorder /
shuffle": a direct add, a watchdog tick (which performs the removals and
directory-driven adds), a click selecting a row, a drag reorder, and a
shuffle. -/
inductive Op where
  | add (path : String)
  | tick (listing : List String)
  | select (index : ℤ)
  | swap (index : ℤ)
  | shuffle (js : List ℕ)

/-- Apply one operation to the player state (`none` = the handler raised). -/
def applyOp (decode : String → Option TrackMeta) : Op → PlayerState → Option PlayerState
  | Op.add path, s =>
    match populate_track_info decode path s.playlist s.existing_tracks with
    | none => none
    | some (pl, tracks, _) => some { s with playlist := pl, existing_tracks := tracks }
  | Op.tick listing, s => watchdog_tick decode listing s
  | Op.select index, s => some (select_track index s)
  | Op.swap index, s => swap_track_index index s
  | Op.shuffle js, s => shuffle_tracks js s

/-- Apply a sequence of operations. -/
def applyOps (decode : String → Option TrackMeta) : List Op → PlayerState → Option PlayerState
  | [], s => some s
  | op :: rest, s =>
    match applyOp decode op s with
    | none => none
    | some s => applyOps decode rest s

/-- The `Player` class attributes at startup (main.py:140-156) with the
default settings volume (main.py:46). -/
def initState : PlayerState :=
  { playlist := []
    nowPlaying := none
    existing_tracks := []
    repeatMode := RepeatMode.off
    volume := 50
    is_muted := false
    mutedIcon := false
    is_playing := false
    show_artwork := false
    track_progress := 0
    track_duration := 0
    posDisplay := 0
    icon := Icon.play
    updaterActive := false
    repeaterActive := false
    volumeUpdaterActive := false
    selected_index := none
    can_shuffle := true
    can_reorder := true
    can_edit := true
    cmds := [] }

/-- The playlist keys are exactly `0, 1, ..., n-1` in order. -/
def keysContiguous (pl : List (ℕ × Track)) : Prop :=
  pl.map Prod.fst = List.range pl.length

/-! ### Basic lemmas about the ordered-dict model -/

/-- Iterated presses of the next button (each calls `next(finished=False)`;
fuel 3 per call covers the one nested `update_playing_track`). -/
def nextIter : ℕ → PlayerState → Option PlayerState
  | 0, s => some s
  | m + 1, s =>
    match next 3 false s with
    | none => none
    | some s2 => nextIter m s2

/-- The player is at entry `k` of the dense playlist `ts`, RepeatMode ALL. -/
def playingAt (ts : List Track) (k : ℕ) (s : PlayerState) : Prop :=
  s.playlist = enumTracks 0 ts ∧ s.repeatMode = RepeatMode.all ∧
    ∃ t, ts.get? k = some t ∧ s.nowPlaying = some (k, t)

def tA : Track :=
  { path := "a.mp3", title := some "A", artist := none, album := none,
    duration := 180, artwork := false }

def tB : Track :=
  { path := "b.mp3", title := some "B", artist := none, album := none,
    duration := 200, artwork := false }

def sC4 : PlayerState :=
  { initState with
    playlist := enumTracks 0 [tA, tB]
    existing_tracks := ["a.mp3", "b.mp3"]
    nowPlaying := some (0, tA)
    repeatMode := RepeatMode.all
    is_playing := true
    track_duration := 180
    track_progress := 10 }

def sC5 : PlayerState :=
  { initState with
    playlist := enumTracks 0 [tA]
    existing_tracks := ["a.mp3"]
    nowPlaying := some (0, tA)
    repeatMode := RepeatMode.off
    is_playing := true
    track_duration := 180
    track_progress := 180
    posDisplay := 180
    icon := Icon.pause
    updaterActive := true }

def sC8 : PlayerState :=
  { initState with
    playlist := enumTracks 0 [tA, tB]
    existing_tracks := ["a.mp3", "b.mp3"]
    nowPlaying := some (1, tB)
    is_playing := true
    track_duration := 200
    track_progress := 1 }

def sC10 : PlayerState :=
  { initState with
    playlist := enumTracks 0 [tA]
    existing_tracks := ["a.mp3"]
    nowPlaying := some (0, tA) }

def sC1 : PlayerState :=
  { initState with
    playlist := enumTracks 0 [tA, tB]
    existing_tracks := ["a.mp3", "b.mp3"]
    nowPlaying := some (0, tA)
    is_playing := true
    track_duration := 180
    track_progress := 5 }

def mA : TrackMeta :=
  { title := none, artist := none, album := none, duration := 120, artwork := false }

def decodeAll : String → Option TrackMeta := fun _ => some mA

def opsC2 : List Op :=
  [Op.add "a.mp3", Op.add "b.mp3", Op.select 0, Op.swap 1,
   Op.shuffle [1], Op.tick ["a.mp3", "b.mp3"]]

def decodeBad : String → Option TrackMeta :=
  fun p => if p = "bad.mp3" then none else some mA

/-- The seek map as 4.4 of the spec words it for an integral duration `n`:
`n` sub-ranges of equal width `396 / n`, the k-th labelled `k`. -/
def idealRanges (n : ℕ) : List (ℕ × ℚ × ℚ) :=
  (List.range n).map (fun k => (k, (k : ℚ) * (396 / n), ((k : ℚ) + 1) * (396 / n)))

def tC7 : Track :=
  { path := "c.mp3", title := none, artist := none, album := none,
    duration := 2, artwork := false }

def sC7 : PlayerState :=
  { initState with
    playlist := enumTracks 0 [tC7]
    existing_tracks := ["c.mp3"]
    nowPlaying := some (0, tC7)
    is_playing := true
    track_duration := 2
    track_progress := 0 }

@[simp]
theorem enumTracks_nil (i : ℕ) : enumTracks i [] = [] := rfl

@[simp]
theorem enumTracks_cons (i : ℕ) (t : Track) (ts : List Track) :
    enumTracks i (t :: ts) = (i, t) :: enumTracks (i + 1) ts := rfl

@[simp]
theorem enumTracks_length (i : ℕ) (ts : List Track) :
    (enumTracks i ts).length = ts.length := by
  induction ts generalizing i with
  | nil => rfl
  | cons t rest ih => simp [ih]

@[simp]
theorem enumTracks_map_snd (i : ℕ) (ts : List Track) :
    (enumTracks i ts).map Prod.snd = ts := by
  induction ts generalizing i with
  | nil => rfl
  | cons t rest ih => simp [ih]

theorem enumTracks_map_fst (i : ℕ) (ts : List Track) :
    (enumTracks i ts).map Prod.fst = List.range' i ts.length := by
  induction ts generalizing i with
  | nil => rfl
  | cons t rest ih => simp [ih, List.range']

theorem enumTracks_append (i : ℕ) (xs ys : List Track) :
    enumTracks i (xs ++ ys) = enumTracks i xs ++ enumTracks (i + xs.length) ys := by
  induction xs generalizing i with
  | nil => simp
  | cons t rest ih =>
    simp only [List.cons_append, enumTracks_cons, ih, List.length_cons]
    rw [show i + 1 + rest.length = i + (rest.length + 1) from by omega]

theorem dget_enumTracks (i : ℕ) (ts : List Track) (k : ℤ) :
    dget (enumTracks i ts) k = if (i : ℤ) ≤ k then ts.get? (k - i).toNat else none := by
  induction ts generalizing i with
  | nil =>
    simp [dget]
  | cons t rest ih =>
    by_cases hk : (i : ℤ) = k
    · subst hk
      simp [dget, List.find?]
    · rw [enumTracks_cons]
      have hfind : dget ((i, t) :: enumTracks (i + 1) rest) k = dget (enumTracks (i + 1) rest) k := by
        simp [dget, List.find?_cons_of_neg, hk]
      rw [hfind, ih]
      push_cast
      by_cases hlt : (i : ℤ) ≤ k
      · have h1 : ((i : ℤ) + 1) ≤ k := by omega
        have h2 : (k - i).toNat = (k - ((i : ℤ) + 1)).toNat + 1 := by omega
        rw [if_pos h1, if_pos hlt, h2, List.get?_cons_succ]
      · have h1 : ¬ (((i : ℤ) + 1) ≤ k) := by omega
        rw [if_neg h1, if_neg hlt]

theorem dictSet_of_not_mem (pl : List (ℕ × Track)) (k : ℕ) (v : Track)
    (h : k ∉ pl.map Prod.fst) : dictSet pl k v = pl ++ [(k, v)] := by
  have : pl.any (fun p => p.1 = k) = false := by
    simp only [List.any_eq_false, decide_eq_true_eq]
    intro p hp hpk
    exact h (hpk ▸ List.mem_map_of_mem Prod.fst hp)
  simp [dictSet, this]

theorem dictUpdate_map_fst (pl : List (ℕ × Track)) (k : ℤ) (v : Track) :
    (dictUpdate pl k v).map Prod.fst = pl.map Prod.fst := by
  induction pl with
  | nil => rfl
  | cons p rest ih =>
    simp only [dictUpdate, List.map_cons] at *
    by_cases h : (p.1 : ℤ) = k <;> simp [h, ih]

/-! ### Characterising `reorder_now_playing` -/

theorem reorder_loop_playlist (L : List (ℕ × Track)) :
    ∀ (vs : List Track) (s : PlayerState), s.playlist = enumTracks 0 vs →
      (reorder_loop L vs.length s).playlist = enumTracks 0 (vs ++ L.map Prod.snd) := by
  induction L with
  | nil => intro vs s hpl; simpa [reorder_loop] using hpl
  | cons p rest ih =>
    intro vs s hpl
    obtain ⟨key, value⟩ := p
    have hfresh : vs.length ∉ (s.playlist.map Prod.fst) := by
      rw [hpl, enumTracks_map_fst]
      simp [List.mem_range']
    have hset : dictSet s.playlist vs.length value = enumTracks 0 (vs ++ [value]) := by
      rw [dictSet_of_not_mem _ _ _ hfresh, hpl, enumTracks_append]
      simp
    have hnext :
        ∀ s₂ : PlayerState, s₂.playlist = enumTracks 0 (vs ++ [value]) →
          (reorder_loop rest (vs.length + 1) s₂).playlist
            = enumTracks 0 (vs ++ value :: rest.map Prod.snd) := by
      intro s₂ h₂
      have := ih (vs ++ [value]) s₂ (by simpa using h₂)
      simpa using this
    simp only [reorder_loop]
    cases hnp : s.nowPlaying with
    | none =>
      apply hnext
      simpa using hset
    | some pr =>
      obtain ⟨j, npi⟩ := pr
      dsimp only
      by_cases hv : value = npi
      · rw [if_pos hv]
        apply hnext
        simpa using hset
      · rw [if_neg hv]
        apply hnext
        simpa using hset

theorem reorder_now_playing_playlist (s : PlayerState) :
    (reorder_now_playing s).playlist = enumTracks 0 (s.playlist.map Prod.snd) := by
  have h := reorder_loop_playlist s.playlist [] { s with playlist := [] } rfl
  simp only [List.length_nil, List.nil_append] at h
  unfold reorder_now_playing
  dsimp only
  split
  · simpa [set_to_default] using h
  · exact h

theorem reorder_loop_stale (L : List (ℕ × Track)) :
    ∀ (vs : List Track) (s : PlayerState) (j : ℕ) (v : Track),
      s.playlist = enumTracks 0 vs → s.nowPlaying = some (j, v) →
      v ∉ L.map Prod.snd →
      reorder_loop L vs.length s
        = { s with playlist := enumTracks 0 (vs ++ L.map Prod.snd) } := by
  induction L with
  | nil =>
    intro vs s j v hpl _ _
    simp [reorder_loop, ← hpl]
  | cons p rest ih =>
    intro vs s j v hpl hnp hv
    obtain ⟨key, value⟩ := p
    rw [List.map_cons, List.mem_cons, not_or] at hv
    obtain ⟨hvne, hvrest⟩ := hv
    have hfresh : vs.length ∉ s.playlist.map Prod.fst := by
      rw [hpl, enumTracks_map_fst]
      simp [List.mem_range']
    have hset : dictSet s.playlist vs.length value = enumTracks 0 (vs ++ [value]) := by
      rw [dictSet_of_not_mem _ _ _ hfresh, hpl, enumTracks_append]
      simp
    simp only [reorder_loop, hnp]
    rw [if_neg (fun h => hvne h.symm)]
    have hlen : (vs ++ [value]).length = vs.length + 1 := by simp
    have hrec := ih (vs ++ [value])
      { s with playlist := dictSet s.playlist vs.length value } j v
      (by simpa using hset) hnp hvrest
    rw [hlen] at hrec
    rw [hrec]
    have hlist : vs ++ [value] ++ rest.map Prod.snd = vs ++ value :: rest.map Prod.snd := by
      simp
    simp only [List.map_cons, hnp, hlist]

theorem reorder_loop_found (L₁ : List (ℕ × Track)) :
    ∀ (kv : ℕ × Track) (L₂ : List (ℕ × Track)) (vs : List Track) (s : PlayerState) (j : ℕ),
      s.playlist = enumTracks 0 vs → s.nowPlaying = some (j, kv.2) →
      kv.2 ∉ L₁.map Prod.snd → kv.2 ∉ L₂.map Prod.snd →
      reorder_loop (L₁ ++ kv :: L₂) vs.length s
        = { s with playlist := enumTracks 0 (vs ++ (L₁ ++ kv :: L₂).map Prod.snd)
                   nowPlaying := some (vs.length + L₁.length, kv.2) } := by
  induction L₁ with
  | nil =>
    intro kv L₂ vs s j hpl hnp _ hv₂
    obtain ⟨key, v⟩ := kv
    have hfresh : vs.length ∉ s.playlist.map Prod.fst := by
      rw [hpl, enumTracks_map_fst]
      simp [List.mem_range']
    have hset : dictSet s.playlist vs.length v = enumTracks 0 (vs ++ [v]) := by
      rw [dictSet_of_not_mem _ _ _ hfresh, hpl, enumTracks_append]
      simp
    simp only [List.nil_append, reorder_loop, hnp]
    simp only [if_true]
    have hlen : (vs ++ [v]).length = vs.length + 1 := by simp
    have hrec := reorder_loop_stale L₂ (vs ++ [v])
      { s with nowPlaying := some (vs.length, v)
               playlist := dictSet s.playlist vs.length v }
      vs.length v (by simpa using hset) rfl hv₂
    rw [hlen] at hrec
    rw [hrec]
    have hlist : vs ++ [v] ++ L₂.map Prod.snd = vs ++ v :: L₂.map Prod.snd := by
      simp
    simp only [List.map_cons, hnp, hlist]
    rfl
  | cons p L₁x ih =>
    intro kv L₂ vs s j hpl hnp hv₁ hv₂
    obtain ⟨key, value⟩ := p
    rw [List.map_cons, List.mem_cons, not_or] at hv₁
    obtain ⟨hvne, hvrest⟩ := hv₁
    have hfresh : vs.length ∉ s.playlist.map Prod.fst := by
      rw [hpl, enumTracks_map_fst]
      simp [List.mem_range']
    have hset : dictSet s.playlist vs.length value = enumTracks 0 (vs ++ [value]) := by
      rw [dictSet_of_not_mem _ _ _ hfresh, hpl, enumTracks_append]
      simp
    simp only [List.cons_append, reorder_loop, hnp, List.append_eq]
    rw [if_neg (fun h => hvne h.symm)]
    have hlen : (vs ++ [value]).length = vs.length + 1 := by simp
    have hrec := ih kv L₂ (vs ++ [value])
      { s with playlist := dictSet s.playlist vs.length value } j
      (by simpa using hset) hnp hvrest hv₂
    rw [hlen] at hrec
    rw [hrec]
    have harith : vs.length + 1 + L₁x.length = vs.length + (L₁x.length + 1) := by omega
    simp only [List.map_cons, List.map_append, List.length_cons, hnp, harith]
    have hlist : vs ++ [value] ++ (List.map Prod.snd L₁x ++ kv.2 :: List.map Prod.snd L₂)
        = vs ++ value :: (List.map Prod.snd L₁x ++ kv.2 :: List.map Prod.snd L₂) := by
      simp
    rw [hlist]

/-- Re-rendering a playlist that still contains the now-playing track keeps
the pair and re-derives its index from the track's position. -/
theorem reorder_now_playing_keep (s : PlayerState) (ts : List Track) (i j : ℕ) (t : Track)
    (hpl : s.playlist = enumTracks 0 ts) (hnp : s.nowPlaying = some (j, t))
    (hnd : ts.Nodup) (hget : ts.get? i = some t) :
    reorder_now_playing s
      = { s with playlist := enumTracks 0 ts, nowPlaying := some (i, t) } := by
  have hi : i < ts.length := List.get?_eq_some.mp hget |>.choose
  have hdecomp : ts = ts.take i ++ t :: ts.drop (i + 1) := by
    conv_lhs => rw [← List.take_append_drop i ts]
    rw [List.drop_eq_get_cons hi]
    have : ts.get ⟨i, hi⟩ = t := by
      have := List.get?_eq_get hi
      rw [hget] at this
      exact (Option.some_inj.mp this.symm)
    rw [this]
  have hnodup2 : (ts.take i ++ t :: ts.drop (i + 1)).Nodup := hdecomp ▸ hnd
  have hmid : (t :: (ts.take i ++ ts.drop (i + 1))).Nodup := List.nodup_middle.mp hnodup2
  have htake : t ∉ ts.take i := by
    have := (List.nodup_cons.mp hmid).1
    intro hmem
    exact this (List.mem_append_left _ hmem)
  have hdrop : t ∉ ts.drop (i + 1) := by
    have := (List.nodup_cons.mp hmid).1
    intro hmem
    exact this (List.mem_append_right _ hmem)
  have hLdecomp : enumTracks 0 ts
      = enumTracks 0 (ts.take i) ++ (i, t) :: enumTracks (i + 1) (ts.drop (i + 1)) := by
    conv_lhs => rw [hdecomp]
    rw [enumTracks_append]
    simp [List.length_take, Nat.min_eq_left (le_of_lt hi)]
  have hfound := reorder_loop_found (enumTracks 0 (ts.take i))
    (i, t) (enumTracks (i + 1) (ts.drop (i + 1))) []
    { s with playlist := [] } j rfl hnp
    (by simpa using htake) (by simpa using hdrop)
  simp only [List.length_nil, List.nil_append] at hfound
  have hmapsnd : (enumTracks 0 (ts.take i) ++ (i, t) :: enumTracks (i + 1) (ts.drop (i + 1))).map Prod.snd = ts := by
    rw [List.map_append, List.map_cons, enumTracks_map_snd, enumTracks_map_snd]
    exact hdecomp.symm
  have hlen1 : (enumTracks 0 (ts.take i)).length = i := by
    rw [enumTracks_length, List.length_take]
    omega
  unfold reorder_now_playing
  dsimp only
  rw [hpl, hLdecomp, hfound, hmapsnd, hlen1]
  have hne : ts.length ≠ 0 := by omega
  rw [if_neg (by simp [hne])]
  simp only [Nat.zero_add, hLdecomp]

/-- Re-rendering a playlist that no longer contains the now-playing track
leaves the stale `nowPlaying` pair untouched (it is only cleared when the
playlist came out empty). -/
theorem reorder_now_playing_stale (s : PlayerState) (j : ℕ) (v : Track)
    (hnp : s.nowPlaying = some (j, v)) (hv : v ∉ s.playlist.map Prod.snd)
    (hne : s.playlist ≠ []) :
    reorder_now_playing s
      = { s with playlist := enumTracks 0 (s.playlist.map Prod.snd) } := by
  have hstale := reorder_loop_stale s.playlist [] { s with playlist := [] } j v
    rfl hnp hv
  simp only [List.length_nil, List.nil_append] at hstale
  unfold reorder_now_playing
  dsimp only
  rw [hstale]
  have hlen : s.playlist.length ≠ 0 := fun h => hne (List.length_eq_zero.mp h)
  rw [if_neg (by simp [hlen])]

/-- Re-rendering an empty playlist while a (stale) track is marked playing:
clear it, reset the display state and stop/unload the mixer. -/
theorem reorder_now_playing_empty (s : PlayerState)
    (hpl : s.playlist = []) (hnp : s.nowPlaying ≠ none) :
    reorder_now_playing s
      = { s with nowPlaying := none, repeaterActive := false, track_progress := 0,
                 track_duration := 0, icon := Icon.play, posDisplay := 0,
                 cmds := s.cmds ++ [Cmd.unload, Cmd.stop] } := by
  unfold reorder_now_playing
  dsimp only
  rw [hpl]
  simp only [reorder_loop]
  rw [if_pos (by exact ⟨rfl, hnp⟩)]
  simp [set_to_default, hpl]

/-- Effect of `update_playing_track` on a dense playlist still containing
the track being loaded: the pair is installed (its index re-derived by the
re-render), progress restarts (the synchronous first clock tick advances it
to 1), the pause affordance is shown, and the mixer gets `load` + `play`.
Fuel 2 suffices because a positive duration stops the clock from recursing. -/
theorem update_playing_track_spec (fuel : ℕ) (ts : List Track) (i : ℕ) (t : Track)
    (s : PlayerState) (hpl : s.playlist = enumTracks 0 ts) (hnd : ts.Nodup)
    (hget : ts.get? i = some t) (hdur : 0 < t.duration) :
    update_playing_track (fuel + 2) i t s
      = some { s with
          playlist := enumTracks 0 ts
          nowPlaying := some (i, t)
          track_duration := t.duration
          track_progress := 1
          posDisplay := 1
          is_playing := true
          icon := Icon.pause
          updaterActive := true
          repeaterActive := false
          show_artwork := if t.artwork then true else s.show_artwork
          cmds := s.cmds ++ [Cmd.load t.path, Cmd.play] } := by
  have hreorder := reorder_now_playing_keep
    { s with updaterActive := false, nowPlaying := some (i, t),
             track_duration := t.duration, track_progress := 0, is_playing := true }
    ts i i t (by simpa using hpl) rfl hnd hget
  have h0 : ((0 : ℕ) : ℚ) < t.duration := by exact_mod_cast hdur
  simp only [update_playing_track]
  rw [hreorder]
  simp only [update_track_progress]
  simp [h0, hdur]

theorem getLast?_range' (i n : ℕ) (h : 0 < n) :
    (List.range' i n).getLast? = some (i + n - 1) := by
  rw [show n = (n - 1) + 1 from by omega, List.range'_concat, List.getLast?_concat]
  congr 1
  omega

theorem dget_enumTracks_some (ts : List Track) (k : ℕ) (t : Track)
    (hget : ts.get? k = some t) : dget (enumTracks 0 ts) (k : ℤ) = some t := by
  rw [dget_enumTracks]
  rw [if_pos (by omega : ((0 : ℕ) : ℤ) ≤ (k : ℤ))]
  rw [show ((k : ℤ) - ((0 : ℕ) : ℤ)).toNat = k from by omega]
  exact hget

theorem dget_enumTracks_none (ts : List Track) (k : ℤ)
    (hk : k < 0 ∨ (ts.length : ℤ) ≤ k) : dget (enumTracks 0 ts) k = none := by
  rw [dget_enumTracks]
  rcases hk with hk | hk
  · rw [if_neg (by omega)]
  · rw [if_pos (by omega : ((0 : ℕ) : ℤ) ≤ k)]
    apply List.get?_eq_none.mpr
    omega

/-- `next` on a RepeatMode-ALL player with a successor entry: advance to it. -/
theorem next_all_advance (fuel : ℕ) (ts : List Track) (k : ℕ) (t t' : Track)
    (s : PlayerState)
    (hpl : s.playlist = enumTracks 0 ts) (hnd : ts.Nodup)
    (hnp : s.nowPlaying = some (k, t)) (hrep : s.repeatMode = RepeatMode.all)
    (hget : ts.get? (k + 1) = some t') (hdur : 0 < t'.duration) :
    next (fuel + 3) false s = some { s with
      playlist := enumTracks 0 ts
      nowPlaying := some (k + 1, t')
      track_duration := t'.duration
      track_progress := 1
      posDisplay := 1
      is_playing := true
      icon := Icon.pause
      updaterActive := true
      repeaterActive := false
      show_artwork := if t'.artwork then true else s.show_artwork
      cmds := s.cmds ++ [Cmd.load t'.path, Cmd.play] } := by
  have hdget : dget s.playlist ((k : ℤ) + 1) = some t' := by
    rw [hpl, show ((k : ℤ) + 1) = (((k + 1 : ℕ)) : ℤ) from by push_cast; ring]
    exact dget_enumTracks_some ts (k + 1) t' hget
  have hupt := update_playing_track_spec fuel ts (k + 1) t'
    { s with nowPlaying := none } (by simpa using hpl) hnd hget hdur
  rw [show fuel + 3 = (fuel + 2) + 1 from rfl]
  simp only [next, hnp, hdget]
  rw [if_neg (fun hcon => by simp [hrep] at hcon)]
  exact hupt

/-- `next` on a RepeatMode-ALL player at the last entry: wrap to index 0. -/
theorem next_all_wrap (fuel : ℕ) (ts : List Track) (k : ℕ) (t t0 : Track)
    (s : PlayerState)
    (hpl : s.playlist = enumTracks 0 ts) (hnd : ts.Nodup)
    (hnp : s.nowPlaying = some (k, t)) (hrep : s.repeatMode = RepeatMode.all)
    (hlast : k + 1 = ts.length)
    (hget0 : ts.get? 0 = some t0) (hdur : 0 < t0.duration) :
    next (fuel + 3) false s = some { s with
      playlist := enumTracks 0 ts
      nowPlaying := some (0, t0)
      track_duration := t0.duration
      track_progress := 1
      posDisplay := 1
      is_playing := true
      icon := Icon.pause
      updaterActive := true
      repeaterActive := false
      show_artwork := if t0.artwork then true else s.show_artwork
      cmds := s.cmds ++ [Cmd.load t0.path, Cmd.play] } := by
  have hdget : dget s.playlist ((k : ℤ) + 1) = none := by
    rw [hpl]
    exact dget_enumTracks_none ts ((k : ℤ) + 1) (Or.inr (by omega))
  have hkeys : ((s.playlist.map Prod.fst).getLast?) = some k := by
    rw [hpl, enumTracks_map_fst, getLast?_range' 0 ts.length (by omega)]
    congr 1
    omega
  have hdget0 : dget s.playlist (0 : ℤ) = some t0 := by
    rw [hpl]
    have h := dget_enumTracks_some ts 0 t0 hget0
    simpa using h
  have hupt := update_playing_track_spec fuel ts 0 t0
    { s with nowPlaying := none } (by simpa using hpl) hnd hget0 hdur
  rw [show fuel + 3 = (fuel + 2) + 1 from rfl]
  simp only [next, hnp, hdget, hkeys]
  rw [if_neg (fun hcon => by simp [hrep] at hcon)]
  rw [if_neg (fun hcon => by simp at hcon)]
  rw [if_pos (le_refl k)]
  simp only [hdget0]
  exact hupt

theorem playingAt_step (ts : List Track) (k : ℕ) (s : PlayerState)
    (hnd : ts.Nodup) (hdur : ∀ u ∈ ts, 0 < u.duration)
    (hk : k < ts.length) (hinv : playingAt ts k s) :
    ∃ s2, next 3 false s = some s2 ∧ playingAt ts ((k + 1) % ts.length) s2 := by
  obtain ⟨hpl, hrep, t, hget, hnp⟩ := hinv
  by_cases hlt : k + 1 < ts.length
  · obtain ⟨t', hget'⟩ : ∃ t', ts.get? (k + 1) = some t' :=
      ⟨_, List.get?_eq_get hlt⟩
    have h := next_all_advance 0 ts k t t' s hpl hnd hnp hrep hget'
      (hdur t' (List.get?_mem hget'))
    refine ⟨_, h, ?_⟩
    rw [Nat.mod_eq_of_lt hlt]
    exact ⟨rfl, hrep, t', hget', rfl⟩
  · have hlast : k + 1 = ts.length := by omega
    obtain ⟨t0, hget0⟩ : ∃ t0, ts.get? 0 = some t0 :=
      ⟨_, List.get?_eq_get (by omega)⟩
    have h := next_all_wrap 0 ts k t t0 s hpl hnd hnp hrep hlast hget0
      (hdur t0 (List.get?_mem hget0))
    refine ⟨_, h, ?_⟩
    rw [hlast, Nat.mod_self]
    exact ⟨rfl, hrep, t0, hget0, rfl⟩

theorem nextIter_cycle (ts : List Track) :
    ∀ (m k : ℕ) (s : PlayerState), ts.Nodup → (∀ u ∈ ts, 0 < u.duration) →
      k < ts.length → k + m = ts.length → playingAt ts k s →
      ∃ s2, nextIter m s = some s2 ∧ playingAt ts 0 s2 := by
  intro m
  induction m with
  | zero =>
    intro k s _ _ hk hsum _
    omega
  | succ m ih =>
    intro k s hnd hdur hk hsum hinv
    obtain ⟨s2, hstep, hinv2⟩ := playingAt_step ts k s hnd hdur hk hinv
    by_cases hlt : k + 1 < ts.length
    · rw [Nat.mod_eq_of_lt hlt] at hinv2
      obtain ⟨s3, hiter, hinv3⟩ := ih (k + 1) s2 hnd hdur hlt (by omega) hinv2
      exact ⟨s3, by simp [nextIter, hstep, hiter], hinv3⟩
    · have hm0 : m = 0 := by omega
      have hz : (k + 1) % ts.length = 0 := by
        rw [show k + 1 = ts.length from by omega]
        exact Nat.mod_self _
      rw [hz] at hinv2
      subst hm0
      exact ⟨s2, by simp [nextIter, hstep], hinv2⟩

/-- `restart` with more than 2 s elapsed: reload the same pair. -/
theorem restart_reload (fuel : ℕ) (ts : List Track) (i : ℕ) (t : Track)
    (s : PlayerState) (hpl : s.playlist = enumTracks 0 ts) (hnd : ts.Nodup)
    (hget : ts.get? i = some t) (hdur : 0 < t.duration)
    (hnp : s.nowPlaying = some (i, t)) (hprog : 2 < s.track_progress) :
    restart (fuel + 2) s = some { s with
      playlist := enumTracks 0 ts
      nowPlaying := some (i, t)
      track_duration := t.duration
      track_progress := 1
      posDisplay := 1
      is_playing := true
      icon := Icon.pause
      updaterActive := true
      repeaterActive := false
      show_artwork := if t.artwork then true else s.show_artwork
      cmds := s.cmds ++ [Cmd.load t.path, Cmd.play] } := by
  simp only [restart, hnp]
  rw [if_pos hprog]
  exact update_playing_track_spec fuel ts i t s hpl hnd hget hdur

/-- `restart` within 2 s at a positive index: go to the previous entry. -/
theorem restart_prev (fuel : ℕ) (ts : List Track) (i : ℕ) (t t' : Track)
    (s : PlayerState) (hpl : s.playlist = enumTracks 0 ts) (hnd : ts.Nodup)
    (hnp : s.nowPlaying = some (i, t)) (hi : 1 ≤ i)
    (hget' : ts.get? (i - 1) = some t') (hdur' : 0 < t'.duration)
    (hprog : s.track_progress ≤ 2) :
    restart (fuel + 2) s = some { s with
      playlist := enumTracks 0 ts
      nowPlaying := some (i - 1, t')
      track_duration := t'.duration
      track_progress := 1
      posDisplay := 1
      is_playing := true
      icon := Icon.pause
      updaterActive := true
      repeaterActive := false
      show_artwork := if t'.artwork then true else s.show_artwork
      cmds := s.cmds ++ [Cmd.load t'.path, Cmd.play] } := by
  have hlen0 : 0 < ts.length := by
    have h := (List.get?_eq_some.mp hget').choose
    omega
  have hcast : ((i : ℤ) - 1) = (((i - 1 : ℕ)) : ℤ) := by omega
  have hdget : dget s.playlist ((i : ℤ) - 1) = some t' := by
    rw [hpl, hcast]
    exact dget_enumTracks_some ts (i - 1) t' hget'
  have hkeys : (s.playlist.map Prod.fst).getLast? = some (ts.length - 1) := by
    rw [hpl, enumTracks_map_fst, getLast?_range' 0 ts.length hlen0]
    simp
  simp only [restart, hnp]
  rw [if_neg (by omega : ¬ 2 < s.track_progress)]
  simp only [hdget, hkeys]
  exact update_playing_track_spec fuel ts (i - 1) t'
    { s with nowPlaying := none } (by simpa using hpl) hnd hget' hdur'

/-- `restart` within 2 s at index 0: wrap to the last entry. -/
theorem restart_wrap (fuel : ℕ) (ts : List Track) (t tl : Track)
    (s : PlayerState) (hpl : s.playlist = enumTracks 0 ts) (hnd : ts.Nodup)
    (hnp : s.nowPlaying = some (0, t)) (hne : 0 < ts.length)
    (hgetl : ts.get? (ts.length - 1) = some tl) (hdurl : 0 < tl.duration)
    (hprog : s.track_progress ≤ 2) :
    restart (fuel + 2) s = some { s with
      playlist := enumTracks 0 ts
      nowPlaying := some (ts.length - 1, tl)
      track_duration := tl.duration
      track_progress := 1
      posDisplay := 1
      is_playing := true
      icon := Icon.pause
      updaterActive := true
      repeaterActive := false
      show_artwork := if tl.artwork then true else s.show_artwork
      cmds := s.cmds ++ [Cmd.load tl.path, Cmd.play] } := by
  have hdget : dget s.playlist (((0 : ℕ) : ℤ) - 1) = none := by
    rw [hpl]
    exact dget_enumTracks_none ts (((0 : ℕ) : ℤ) - 1) (Or.inl (by omega))
  have hkeys : (s.playlist.map Prod.fst).getLast? = some (ts.length - 1) := by
    rw [hpl, enumTracks_map_fst, getLast?_range' 0 ts.length hne]
    simp
  have hdgetl : dget s.playlist ((ts.length - 1 : ℕ) : ℤ) = some tl := by
    rw [hpl]
    exact dget_enumTracks_some ts (ts.length - 1) tl hgetl
  simp only [restart, hnp]
  rw [if_neg (by omega : ¬ 2 < s.track_progress)]
  simp only [hdget, hkeys]
  rw [if_pos (le_refl ((0 : ℕ) : ℤ))]
  simp only [hdgetl]
  exact update_playing_track_spec fuel ts (ts.length - 1) tl
    { s with nowPlaying := none } (by simpa using hpl) hnd hgetl hdurl

/-! ### Concrete fixtures used by the witnesses -/

/-! ### Claims -/

/-- C3 (counterexample): from a reachable state — start up, `toggle_mute`,
then move the volume slider to 1 (`adjust_volume "1"`) — Muted is still
true, yet the volume last forwarded to the device is `1/100`, not `0`; so
neither "Muted forces effective output 0" nor "any v>0 clears the muted
appearance" holds at `v = 1`. -/
theorem c3_muted_forward_counterexample :
    (adjust_volume 1 (toggle_mute initState)).is_muted = true ∧
    lastSetVolume (adjust_volume 1 (toggle_mute initState)).cmds = some (1 / 100) ∧
    ¬ ((1 : ℚ) / 100 = 0) := by
  refine ⟨rfl, ?_, by norm_num⟩
  norm_num [adjust_volume, toggle_mute, updating_volume, initState, lastSetVolume]

/-- C3 (amended): `set_volume(v)` stores `v`, sets the muted appearance for
`v = 0`, clears it only for `v > 1` (leaving `v = 1` unchanged), and always
forwards `v/100` to the device regardless of Muted — so Muted forces output
0 only until the next volume operation. -/
theorem c3_adjust_volume_spec (s : PlayerState) (v : ℤ) :
    (adjust_volume v s).is_muted
        = (if v = 0 then true else if 1 < v then false else s.is_muted) ∧
    (adjust_volume v s).volume = v ∧
    lastSetVolume (adjust_volume v s).cmds = some ((v : ℚ) / 100) := by
  by_cases h0 : v = 0 <;> by_cases h1 : 1 < v <;> by_cases hc : s.can_edit <;>
    simp [adjust_volume, updating_volume, lastSetVolume, List.foldl_append, h0, h1, hc]

/-- C4: with RepeatMode ALL, NowPlaying at index 0 of an `n`-entry playlist
(`n ≥ 1`, distinct paths, positive durations) and the current track not
fully elapsed, pressing next exactly `n` times wraps past the last index
and returns NowPlaying to index 0 with the same track. -/
theorem c4_next_n_times_all_returns_to_start (ts : List Track) (s : PlayerState)
    (hne : 0 < ts.length) (hpaths : (ts.map Track.path).Nodup)
    (hdur : ∀ u ∈ ts, 0 < u.duration)
    (hinv : playingAt ts 0 s)
    (hprog : (s.track_progress : ℚ) < s.track_duration) :
    (nextIter ts.length s).map PlayerState.nowPlaying = some s.nowPlaying := by
  have hnd : ts.Nodup := hpaths.of_map
  obtain ⟨s2, hiter, hinv2⟩ :=
    nextIter_cycle ts ts.length 0 s hnd hdur hne (by omega) hinv
  obtain ⟨hpl0, hrep0, t0, hget0, hnp0⟩ := hinv
  obtain ⟨-, -, t0x, hget0x, hnp2⟩ := hinv2
  rw [hget0] at hget0x
  obtain rfl : t0 = t0x := Option.some_inj.mp hget0x
  rw [hiter]
  simp [hnp2, hnp0]

/-- C4 witness on the concrete two-track playlist `[tA, tB]`. -/
theorem c4_witness :
    (nextIter [tA, tB].length sC4).map PlayerState.nowPlaying = some sC4.nowPlaying :=
  c4_next_n_times_all_returns_to_start [tA, tB] sC4 (by decide) (by decide)
    (by decide) ⟨rfl, rfl, tA, rfl, rfl⟩ (by norm_num [sC4, initState])

/-- C5: `next(finished=true)` with RepeatMode OFF and no successor entry
clears NowPlaying, resets the play/pause affordance to the play icon and
cancels the progress updater; everything else — in particular the elapsed
counter, the position display and the mixer command log (no further `load`
or `play`) — is left unchanged, which is how the source "stops playback"
for a track that has just finished on its own. -/
theorem c5_next_finished_off_at_end (fuel : ℕ) (s : PlayerState) (k : ℕ) (t : Track)
    (hnp : s.nowPlaying = some (k, t))
    (hrep : s.repeatMode = RepeatMode.off)
    (hnone : dget s.playlist ((k : ℤ) + 1) = none) :
    next (fuel + 1) true s
      = some { s with nowPlaying := none, icon := Icon.play, updaterActive := false } := by
  simp only [next, hnp, hnone]
  rw [if_neg (fun hcon => by simp [hrep] at hcon)]
  rw [if_pos ⟨hrep, trivial⟩]

/-- C5 witness: the single-track playlist `[tA]` fully elapsed. -/
theorem c5_witness :
    next 1 true sC5
      = some { sC5 with nowPlaying := none, icon := Icon.play, updaterActive := false } :=
  c5_next_finished_off_at_end 0 sC5 0 tA rfl rfl (by decide)

/-- C8: with NowPlaying at entry `i` of the dense playlist `ts`:
`restart` with elapsed > 2 reloads the same pair from the beginning
(`load` + `play` on the mixer); with elapsed ≤ 2 at `i ≥ 1` it moves
NowPlaying to `i - 1`; with elapsed ≤ 2 at `i = 0` it wraps NowPlaying to
the last entry. -/
theorem c8_restart_cases (fuel : ℕ) (ts : List Track) (i : ℕ) (t : Track)
    (s : PlayerState)
    (hpl : s.playlist = enumTracks 0 ts) (hpaths : (ts.map Track.path).Nodup)
    (hdur : ∀ u ∈ ts, 0 < u.duration)
    (hnp : s.nowPlaying = some (i, t)) (hget : ts.get? i = some t) :
    (2 < s.track_progress →
      (restart (fuel + 2) s).map (fun s2 => (s2.nowPlaying, s2.cmds))
        = some (some (i, t), s.cmds ++ [Cmd.load t.path, Cmd.play])) ∧
    (s.track_progress ≤ 2 → 1 ≤ i → ∀ tp, ts.get? (i - 1) = some tp →
      (restart (fuel + 2) s).map (fun s2 => (s2.nowPlaying, s2.cmds))
        = some (some (i - 1, tp), s.cmds ++ [Cmd.load tp.path, Cmd.play])) ∧
    (s.track_progress ≤ 2 → i = 0 → ∀ tl, ts.get? (ts.length - 1) = some tl →
      (restart (fuel + 2) s).map (fun s2 => (s2.nowPlaying, s2.cmds))
        = some (some (ts.length - 1, tl), s.cmds ++ [Cmd.load tl.path, Cmd.play])) := by
  have hnd : ts.Nodup := hpaths.of_map
  refine ⟨?_, ?_, ?_⟩
  · intro hprog
    rw [restart_reload fuel ts i t s hpl hnd hget (hdur t (List.get?_mem hget)) hnp hprog]
    rfl
  · intro hprog hi tp hgtp
    rw [restart_prev fuel ts i t tp s hpl hnd hnp hi hgtp
      (hdur tp (List.get?_mem hgtp)) hprog]
    rfl
  · intro hprog hi0 tl hgtl
    subst hi0
    have hlen : 0 < ts.length := by
      have h := (List.get?_eq_some.mp hget).choose
      omega
    rw [restart_wrap fuel ts t tl s hpl hnd hnp hlen hgtl
      (hdur tl (List.get?_mem hgtl)) hprog]
    rfl

/-- C8 witness: `restart` within 2 s at index 1 of `[tA, tB]` moves back to
index 0 and reloads `a.mp3`. -/
theorem c8_witness :
    (restart (0 + 2) sC8).map (fun s2 => (s2.nowPlaying, s2.cmds))
      = some (some (0, tA), sC8.cmds ++ [Cmd.load tA.path, Cmd.play]) :=
  (c8_restart_cases 0 [tA, tB] 1 tB sC8 rfl (by decide) (by decide) rfl rfl).2.1
    (by decide) (by decide) tA rfl

/-- C10: a watchdog tick in which the tracked-files set and the directory
listing have the same cardinality takes neither the shrink nor the grow
branch, so the whole state is unchanged: a vanished file stays in the
playlist and a new file is not added. -/
theorem c10_watchdog_same_cardinality (decode : String → Option TrackMeta)
    (listing : List String) (s : PlayerState)
    (h : s.existing_tracks.dedup.length
        = ((listing.filter (fun f => isAudio f)).dedup.length)) :
    watchdog_tick decode listing s = some s := by
  unfold watchdog_tick
  rw [if_neg (by omega), if_neg (by omega)]

/-- C10 witness: `a.mp3` replaced by `b.mp3` on disk between two ticks —
the stale entry survives and the new file is ignored. -/
theorem c10_witness :
    watchdog_tick (fun _ => none) ["b.mp3"] sC10 = some sC10 :=
  c10_watchdog_same_cardinality (fun _ => none) ["b.mp3"] sC10 (by decide)

/-- C1 (counterexample): `a.mp3` is NowPlaying and vanishes while `b.mp3`
remains.  The tick removes the entry, but NowPlaying still holds the stale
removed pair and no `stop` (or any) command reaches the device — the claim's
"clear NowPlaying, stop the device, reset display" does not happen when
the playlist stays non-empty. -/
theorem c1_watchdog_remove_counterexample :
    (watchdog_tick (fun _ => none) ["b.mp3"] sC1).map
        (fun s2 => (s2.playlist, s2.nowPlaying, s2.cmds))
      = some (enumTracks 0 [tB], some (0, tA), ([] : List Cmd)) := by
  decide

/-- C1 (amended): a tick that notices the NowPlaying file vanished always
removes its entry from the playlist; but NowPlaying is cleared, the device
stopped (`unload`/`stop`) and the display reset only when the removal
leaves the playlist empty.  When other tracks remain, NowPlaying keeps the
stale removed pair and no device command is issued. -/
theorem c1_watchdog_remove_spec (decode : String → Option TrackMeta) (ta tb : Track)
    (hne : ta.path ≠ tb.path) (hauda : isAudio ta.path = true)
    (haudb : isAudio tb.path = true) :
    (∀ s : PlayerState, s.playlist = enumTracks 0 [ta, tb] →
      s.existing_tracks = [ta.path, tb.path] → s.nowPlaying = some (0, ta) →
      watchdog_tick decode [tb.path] s
        = some { s with playlist := enumTracks 0 [tb],
                        existing_tracks := [tb.path] }) ∧
    (∀ s : PlayerState, s.playlist = enumTracks 0 [ta] →
      s.existing_tracks = [ta.path] → s.nowPlaying = some (0, ta) →
      watchdog_tick decode [] s
        = some { s with playlist := [], existing_tracks := [],
                        nowPlaying := none, repeaterActive := false,
                        track_progress := 0, track_duration := 0,
                        icon := Icon.play, posDisplay := 0,
                        cmds := s.cmds ++ [Cmd.unload, Cmd.stop] }) := by
  have hne2 : tb.path ≠ ta.path := hne.symm
  have htne : ta ≠ tb := fun h => hne (congrArg Track.path h)
  constructor
  · intro s hpl hex hnp
    have hfilter : [tb.path].filter (fun f => isAudio f) = [tb.path] := by
      simp [haudb]
    have hloop : wd_remove_loop [tb.path] 2 0 [ta.path, tb.path]
        (enumTracks 0 [ta, tb]) false = some ([tb.path], [(1, tb)], true) := by
      simp [wd_remove_loop, wd_pop_hits, hne, hne2, List.erase_cons_head,
        List.erase_cons_tail]
    have hstale := reorder_now_playing_stale
      { s with existing_tracks := [tb.path], playlist := [(1, tb)] } 0 ta
      hnp (by simpa using htne) (by simp)
    simp only [watchdog_tick, hfilter, hex, hpl]
    rw [if_pos (by simp [List.dedup_cons_of_not_mem, hne])]
    rw [show ([ta.path, tb.path] : List String).length = 2 from rfl, hloop]
    simp only [if_true]
    rw [hstale]
    rfl
  · intro s hpl hex hnp
    have hloop : wd_remove_loop [] 1 0 [ta.path] (enumTracks 0 [ta]) false
        = some ([], [], true) := by
      simp [wd_remove_loop, wd_pop_hits]
    have hempty := reorder_now_playing_empty
      { s with existing_tracks := [], playlist := [] } rfl
      (by simp [hnp])
    simp only [watchdog_tick, hex, hpl, List.filter_nil]
    rw [if_pos (by simp)]
    rw [show ([ta.path] : List String).length = 1 from rfl, hloop]
    simp only [if_true]
    rw [hempty]

/-- C1 witness for the amended theorem at the concrete tracks `tA`, `tB`. -/
theorem c1_witness :
    watchdog_tick (fun _ => none) ["b.mp3"] sC1
      = some { sC1 with playlist := enumTracks 0 [tB],
                        existing_tracks := ["b.mp3"] } :=
  (c1_watchdog_remove_spec (fun _ => none) tA tB (by decide) (by decide)
    (by decide)).1 sC1 rfl rfl rfl

/-! ### C2: the contiguity invariant -/

theorem keysContiguous_enumTracks (ts : List Track) :
    keysContiguous (enumTracks 0 ts) := by
  unfold keysContiguous
  rw [enumTracks_map_fst, enumTracks_length, List.range_eq_range']

theorem keysContiguous_reorder (s : PlayerState) :
    keysContiguous (reorder_now_playing s).playlist := by
  rw [reorder_now_playing_playlist]
  exact keysContiguous_enumTracks _

theorem populate_keys (decode : String → Option TrackMeta) (path : String)
    (pl : List (ℕ × Track)) (tracks : List String)
    (pl2 : List (ℕ × Track)) (tracks2 : List String) (r : Option ℕ)
    (h : populate_track_info decode path pl tracks = some (pl2, tracks2, r))
    (hk : keysContiguous pl) : keysContiguous pl2 := by
  unfold keysContiguous at hk ⊢
  unfold populate_track_info at h
  cases hdec : decode path with
  | none => rw [hdec] at h; cases h
  | some meta =>
    rw [hdec] at h
    dsimp only at h
    by_cases hdup : pl.any (fun p => p.2.path = path)
    · rw [if_pos hdup] at h
      simp only [Option.some_inj, Prod.mk.injEq] at h
      rw [← h.1]
      exact hk
    · rw [if_neg hdup] at h
      simp only [Option.some_inj, Prod.mk.injEq] at h
      have hfresh : pl.length ∉ pl.map Prod.fst := by
        rw [hk]
        simp
      rw [← h.1, dictSet_of_not_mem _ _ _ hfresh]
      simp [hk, List.range_succ]

theorem wd_pop_hits_false (L : List (ℕ × Track)) :
    ∀ (file : String) (tracks : List String) (pl : List (ℕ × Track)) (upd : Bool)
      (tr2 : List String) (pl2 : List (ℕ × Track)),
      wd_pop_hits L file tracks pl upd = some (tr2, pl2, false) →
      upd = false ∧ pl2 = pl ∧ tr2 = tracks := by
  induction L with
  | nil =>
    intro file tracks pl upd tr2 pl2 h
    simp only [wd_pop_hits, Option.some_inj, Prod.mk.injEq] at h
    exact ⟨h.2.2, h.2.1.symm, h.1.symm⟩
  | cons p rest ih =>
    intro file tracks pl upd tr2 pl2 h
    obtain ⟨key, value⟩ := p
    simp only [wd_pop_hits] at h
    by_cases hv : value.path = file
    · rw [if_pos hv] at h
      by_cases hm : file ∈ tracks
      · rw [if_pos hm] at h
        obtain ⟨hfalse, -, -⟩ := ih _ _ _ _ _ _ h
        cases hfalse
      · rw [if_neg hm] at h
        cases h
    · rw [if_neg hv] at h
      exact ih _ _ _ _ _ _ h

theorem wd_remove_loop_false (files : List String) (fuel : ℕ) :
    ∀ (i : ℕ) (tracks : List String) (pl : List (ℕ × Track)) (upd : Bool)
      (tr2 : List String) (pl2 : List (ℕ × Track)),
      wd_remove_loop files fuel i tracks pl upd = some (tr2, pl2, false) →
      upd = false ∧ pl2 = pl := by
  induction fuel with
  | zero =>
    intro i tracks pl upd tr2 pl2 h
    simp only [wd_remove_loop, Option.some_inj, Prod.mk.injEq] at h
    exact ⟨h.2.2, h.2.1.symm⟩
  | succ fuel ih =>
    intro i tracks pl upd tr2 pl2 h
    simp only [wd_remove_loop] at h
    by_cases hi : i < tracks.length
    · rw [dif_pos hi] at h
      by_cases hm : tracks.get ⟨i, hi⟩ ∈ files
      · rw [if_pos hm] at h
        exact ih _ _ _ _ _ _ h
      · rw [if_neg hm] at h
        cases hpop : wd_pop_hits pl (tracks.get ⟨i, hi⟩) tracks pl upd with
        | none => rw [hpop] at h; cases h
        | some triple =>
          obtain ⟨tr3, pl3, u3⟩ := triple
          rw [hpop] at h
          obtain ⟨hu3, hpl3⟩ := ih _ _ _ _ _ _ h
          subst hu3
          obtain ⟨hu, hp, -⟩ := wd_pop_hits_false pl _ _ _ _ _ _ hpop
          exact ⟨hu, hpl3.trans hp⟩
    · rw [dif_neg hi] at h
      simp only [Option.some_inj, Prod.mk.injEq] at h
      exact ⟨h.2.2, h.2.1.symm⟩

theorem wd_add_loop_false (decode : String → Option TrackMeta) (L : List String) :
    ∀ (pl : List (ℕ × Track)) (tracks : List String) (upd : Bool)
      (pl2 : List (ℕ × Track)) (tr2 : List String),
      wd_add_loop decode L pl tracks upd = some (pl2, tr2, false) →
      upd = false ∧ pl2 = pl := by
  induction L with
  | nil =>
    intro pl tracks upd pl2 tr2 h
    simp only [wd_add_loop, Option.some_inj, Prod.mk.injEq] at h
    exact ⟨h.2.2, h.1.symm⟩
  | cons f rest ih =>
    intro pl tracks upd pl2 tr2 h
    simp only [wd_add_loop] at h
    by_cases hm : f ∈ tracks
    · rw [if_pos hm] at h
      exact ih _ _ _ _ _ h
    · rw [if_neg hm] at h
      cases hp : populate_track_info decode f pl tracks with
      | none => rw [hp] at h; cases h
      | some triple =>
        obtain ⟨pl3, tr3, r⟩ := triple
        rw [hp] at h
        obtain ⟨hfalse, -⟩ := ih _ _ _ _ _ h
        cases hfalse

theorem watchdog_tick_keys (decode : String → Option TrackMeta)
    (listing : List String) (s s2 : PlayerState)
    (h : watchdog_tick decode listing s = some s2)
    (hk : keysContiguous s.playlist) : keysContiguous s2.playlist := by
  simp only [watchdog_tick] at h
  split at h
  · cases hrem : wd_remove_loop (listing.filter (fun f => isAudio f))
        s.existing_tracks.length 0 s.existing_tracks s.playlist false with
    | none => rw [hrem] at h; cases h
    | some triple =>
      obtain ⟨tr2, pl2, upd⟩ := triple
      rw [hrem] at h
      obtain rfl := Option.some_inj.mp h
      cases upd with
      | true => exact keysContiguous_reorder _
      | false =>
        obtain ⟨-, hpl⟩ := wd_remove_loop_false _ _ _ _ _ _ _ _ hrem
        simpa [hpl] using hk
  · split at h
    · cases hadd : wd_add_loop decode (listing.filter (fun f => isAudio f))
          s.playlist s.existing_tracks false with
      | none => rw [hadd] at h; cases h
      | some triple =>
        obtain ⟨pl2, tr2, upd⟩ := triple
        rw [hadd] at h
        obtain rfl := Option.some_inj.mp h
        cases upd with
        | true => exact keysContiguous_reorder _
        | false =>
          obtain ⟨-, hpl⟩ := wd_add_loop_false _ _ _ _ _ _ _ hadd
          simpa [hpl] using hk
    · obtain rfl := Option.some_inj.mp h
      exact hk

theorem applyOp_keys (decode : String → Option TrackMeta) (op : Op)
    (s s2 : PlayerState) (h : applyOp decode op s = some s2)
    (hk : keysContiguous s.playlist) : keysContiguous s2.playlist := by
  cases op with
  | add path =>
    simp only [applyOp] at h
    cases hp : populate_track_info decode path s.playlist s.existing_tracks with
    | none => rw [hp] at h; cases h
    | some triple =>
      obtain ⟨pl2, tr2, r⟩ := triple
      rw [hp] at h
      obtain rfl := Option.some_inj.mp h
      exact populate_keys decode path s.playlist s.existing_tracks pl2 tr2 r hp hk
  | tick listing => exact watchdog_tick_keys decode listing s s2 h hk
  | select i =>
    simp only [applyOp, select_track] at h
    obtain rfl := Option.some_inj.mp h
    exact hk
  | swap i =>
    simp only [applyOp, swap_track_index] at h
    by_cases hcr : ¬ s.can_reorder
    · rw [if_pos hcr] at h
      obtain rfl := Option.some_inj.mp h
      exact hk
    · rw [if_neg hcr] at h
      cases hsel : s.selected_index with
      | none => rw [hsel] at h; cases h
      | some sel =>
        rw [hsel] at h
        dsimp only at h
        by_cases hij : i < sel ∨ sel < i
        · rw [if_pos hij] at h
          cases hg1 : dget s.playlist sel with
          | none => rw [hg1] at h; cases h
          | some vSel =>
            cases hg2 : dget s.playlist i with
            | none => rw [hg1, hg2] at h; cases h
            | some vIdx =>
              rw [hg1, hg2] at h
              obtain rfl := Option.some_inj.mp h
              exact keysContiguous_reorder _
        · rw [if_neg hij] at h
          obtain rfl := Option.some_inj.mp h
          exact hk
  | shuffle js =>
    simp only [applyOp, shuffle_tracks] at h
    by_cases hcs : ¬ s.can_shuffle
    · rw [if_pos hcs] at h
      obtain rfl := Option.some_inj.mp h
      exact hk
    · rw [if_neg hcs] at h
      cases hsh : pyShuffleLoop js (s.playlist.length - 1) s.playlist with
      | none => rw [hsh] at h; cases h
      | some pl2 =>
        rw [hsh] at h
        obtain rfl := Option.some_inj.mp h
        exact keysContiguous_reorder _

theorem applyOps_keys (decode : String → Option TrackMeta) :
    ∀ (ops : List Op) (s s2 : PlayerState),
      applyOps decode ops s = some s2 → keysContiguous s.playlist →
      keysContiguous s2.playlist := by
  intro ops
  induction ops with
  | nil =>
    intro s s2 h hk
    obtain rfl := Option.some_inj.mp h
    exact hk
  | cons op rest ih =>
    intro s s2 h hk
    simp only [applyOps] at h
    cases hop : applyOp decode op s with
    | none => rw [hop] at h; cases h
    | some s3 =>
      rw [hop] at h
      exact ih s3 s2 h (applyOp_keys decode op s s3 hop hk)

/-- C2: starting from the startup state, after any sequence of playlist
operations (direct adds, watchdog ticks with their removals and adds, drag
reorders, shuffles) that completes without raising, the playlist keys are
exactly the contiguous range `0..n-1`. -/
theorem c2_playlist_keys_contiguous (decode : String → Option TrackMeta)
    (ops : List Op) (s : PlayerState)
    (h : applyOps decode ops initState = some s) : keysContiguous s.playlist :=
  applyOps_keys decode ops initState s h rfl

/-- C2 witness: a concrete add/add/reorder/shuffle/tick run. -/
theorem c2_witness :
    keysContiguous (((applyOps decodeAll opsC2 initState).getD initState).playlist) := by
  have h : applyOps decodeAll opsC2 initState
      = some ((applyOps decodeAll opsC2 initState).getD initState) := by decide
  exact c2_playlist_keys_contiguous decodeAll opsC2 _ h

/-- C6: `add(path)` on a playlist with unique paths and dense keys: a
duplicate path is rejected (`None` returned, playlist unchanged, still
exactly one entry with that path); a new path is appended at the fresh key
`len(playlist)` and that index is returned. -/
theorem c6_populate_track_info_spec (decode : String → Option TrackMeta)
    (path : String) (meta : TrackMeta) (pl : List (ℕ × Track)) (tracks : List String)
    (hdec : decode path = some meta) (hkeys : keysContiguous pl)
    (hdedup : (pl.map (fun p => p.2.path)).Nodup) :
    ((∃ p ∈ pl, p.2.path = path) →
      populate_track_info decode path pl tracks = some (pl, tracks, none) ∧
      (pl.map (fun p => p.2.path)).count path = 1) ∧
    ((∀ p ∈ pl, p.2.path ≠ path) →
      populate_track_info decode path pl tracks
        = some (pl ++ [(pl.length,
            { path := path, title := meta.title, artist := meta.artist,
              album := meta.album, duration := meta.duration,
              artwork := meta.artwork })],
            (if path ∈ tracks then tracks else tracks ++ [path]),
            some pl.length)) := by
  unfold keysContiguous at hkeys
  constructor
  · rintro ⟨p, hp, hpath⟩
    have hany : pl.any (fun q => q.2.path = path) = true := by
      rw [List.any_eq_true]
      exact ⟨p, hp, by simp [hpath]⟩
    constructor
    · simp only [populate_track_info, hdec]
      rw [if_pos hany]
    · have hmem : path ∈ pl.map (fun p => p.2.path) :=
        List.mem_map.mpr ⟨p, hp, hpath⟩
      exact List.count_eq_one_of_mem hdedup hmem
  · intro hall
    have hany : pl.any (fun q => q.2.path = path) = false := by
      rw [List.any_eq_false]
      intro p hp
      simp [hall p hp]
    have hfresh : pl.length ∉ pl.map Prod.fst := by
      rw [hkeys]
      simp
    simp only [populate_track_info, hdec]
    rw [if_neg (by simp [hany])]
    rw [dictSet_of_not_mem _ _ _ hfresh]

/-- C6 witness: adding `a.mp3` twice — the second call is rejected and the
single entry is kept. -/
theorem c6_witness :
    (populate_track_info decodeAll "a.mp3" (enumTracks 0 [tA]) ["a.mp3"]
        = some (enumTracks 0 [tA], ["a.mp3"], none) ∧
      ((enumTracks 0 [tA]).map (fun p => p.2.path)).count "a.mp3" = 1) :=
  (c6_populate_track_info_spec decodeAll "a.mp3" mA (enumTracks 0 [tA]) ["a.mp3"]
    rfl rfl (by decide)).1 (by decide)

/-- C9 (counterexample): `add_existing_tracks` has no exception handling
around `TinyTag.get`; with an undecodable first file the whole scan raises
(`none`), so the remaining `good.mp3` is never added — the scan does not
continue. -/
theorem c9_decode_failure_counterexample :
    add_existing_tracks decodeBad ["bad.mp3", "good.mp3"] [] [] = none := by
  decide

/-- C9 (amended): an undecodable file is indeed not added, but the decode
exception propagates out of the scan loop: everything processed before the
failing file is kept, the failing file and all files after it are not
processed, and the scan as a whole fails. -/
theorem c9_decode_failure_aborts (decode : String → Option TrackMeta)
    (files1 : List String) (f : String) (rest : List String)
    (pl pl2 : List (ℕ × Track)) (tracks tracks2 : List String)
    (hok : add_existing_tracks decode files1 pl tracks = some (pl2, tracks2))
    (haud : isAudio f = true) (hbad : decode f = none) :
    add_existing_tracks decode (files1 ++ f :: rest) pl tracks = none := by
  induction files1 generalizing pl tracks with
  | nil =>
    simp only [List.nil_append, add_existing_tracks]
    rw [if_pos haud]
    simp [populate_track_info, hbad]
  | cons g gs ih =>
    simp only [add_existing_tracks, List.cons_append] at hok ⊢
    by_cases hg : isAudio g = true
    · rw [if_pos hg] at hok ⊢
      cases hp : populate_track_info decode g pl tracks with
      | none =>
        rw [hp] at hok
      | some triple =>
        obtain ⟨pl3, tr3, r⟩ := triple
        rw [hp] at hok
        cases r with
        | none => cases hok
        | some idx => exact ih pl3 tr3 hok
    · rw [if_neg hg] at hok ⊢
      exact ih pl tracks hok

/-- C9 witness: `good.mp3` decodes, then `bad.mp3` aborts the scan. -/
theorem c9_witness :
    add_existing_tracks decodeBad (["good.mp3"] ++ "bad.mp3" :: []) [] [] = none :=
  c9_decode_failure_aborts decodeBad ["good.mp3"] "bad.mp3" [] []
    [(0, { path := "good.mp3", title := none, artist := none, album := none,
           duration := 120, artwork := false })]
    [] ["good.mp3"] (by decide) (by decide) (by decide)

/-! ### C7: the seek map -/

theorem pyRound_natCast (n : ℕ) : pyRound (n : ℚ) = n := by
  simp only [pyRound, Int.floor_natCast]
  norm_num

theorem pyRound_five_halves : pyRound (5 / 2) = 2 := by
  have hfloor : ⌊(5 / 2 : ℚ)⌋ = 2 := by
    rw [Int.floor_eq_iff]
    norm_num
  simp only [pyRound, hfloor]
  norm_num

theorem seekSegsAux_eq (w : ℚ) :
    ∀ (m seg : ℕ) (a : ℚ),
      seekSegsAux w m seg a (a + w)
        = (List.range m).map
            (fun j => (seg + j, a + j * w, a + (j + 1) * w)) := by
  intro m
  induction m with
  | zero => intro seg a; simp [seekSegsAux]
  | succ m ih =>
    intro seg a
    rw [seekSegsAux, ih (seg + 1) (a + w), List.range_succ_eq_map]
    simp only [List.map_cons, List.map_map]
    refine List.cons_eq_cons.mpr ⟨?_, ?_⟩
    · simp
    · refine List.map_congr_left ?_
      intro j hj
      simp only [Function.comp_apply, Prod.mk.injEq]
      refine ⟨by omega, ?_, ?_⟩ <;> push_cast <;> ring

theorem coordinate_ranges_natCast (n : ℕ) :
    coordinate_ranges (n : ℚ) = idealRanges n := by
  unfold idealRanges
  unfold coordinate_ranges
  rw [pyRound_natCast, show ((n : ℤ).toNat) = n from by omega]
  have h := seekSegsAux_eq (396 / (n : ℚ)) n 0 0
  rw [zero_add] at h
  rw [h]
  refine List.map_congr_left ?_
  intro j hj
  refine Prod.ext ?_ (Prod.ext ?_ ?_) <;> push_cast <;> ring

theorem seekScan_no_match (ranges : List (ℕ × ℚ × ℚ)) (x : ℚ) :
    ∀ (p : ℕ) (cmds : List Cmd),
      (∀ r ∈ ranges, ¬ (r.2.1 ≤ x ∧ x ≤ r.2.2)) →
      seekScan ranges x p cmds = (p, cmds) := by
  induction ranges with
  | nil => intro p cmds _; rfl
  | cons r rest ih =>
    intro p cmds h
    simp only [seekScan, List.foldl_cons]
    rw [if_neg (h r (List.mem_cons_self _ _))]
    exact ih p cmds (fun r2 hr2 => h r2 (List.mem_cons_of_mem _ hr2))

theorem seekScan_last_match (ranges : List (ℕ × ℚ × ℚ)) (x : ℚ) :
    ∀ (p : ℕ) (cmds : List Cmd),
      (∃ r ∈ ranges, r.2.1 ≤ x ∧ x ≤ r.2.2) →
      ∃ r ∈ ranges, (r.2.1 ≤ x ∧ x ≤ r.2.2) ∧ (seekScan ranges x p cmds).1 = r.1 := by
  induction ranges using List.reverseRecOn with
  | nil =>
    intro p cmds h
    obtain ⟨r, hr, -⟩ := h
    cases hr
  | append_singleton l r ih =>
    intro p cmds hex
    have happ : seekScan (l ++ [r]) x p cmds
        = (if r.2.1 ≤ x ∧ x ≤ r.2.2 then
             (r.1, (seekScan l x p cmds).2 ++ [Cmd.setPos r.1])
           else seekScan l x p cmds) := by
      simp only [seekScan, List.foldl_append, List.foldl_cons, List.foldl_nil]
    by_cases hr : r.2.1 ≤ x ∧ x ≤ r.2.2
    · refine ⟨r, List.mem_append_right _ (List.mem_singleton_self r), hr, ?_⟩
      rw [happ, if_pos hr]
    · have hex2 : ∃ r2 ∈ l, r2.2.1 ≤ x ∧ x ≤ r2.2.2 := by
        obtain ⟨r2, hr2, hcond⟩ := hex
        rcases List.mem_append.mp hr2 with hl | hrr
        · exact ⟨r2, hl, hcond⟩
        · rw [List.mem_singleton.mp hrr] at hcond
          exact absurd hcond hr
      obtain ⟨r2, hr2, hcond, heq⟩ := ih p cmds hex2
      refine ⟨r2, List.mem_append_left _ hr2, hcond, ?_⟩
      rw [happ, if_neg hr]
      exact heq

/-- C7 (counterexample): a track of duration 2.5 s gets `round(2.5) = 2`
sub-ranges ending at `1584/5 = 316.8 < 396`, so they do not cover the
coordinate range `0..396`; a click at `x = 396` (in bounds) matches no
sub-range and the scan leaves the progress at its old value `7` instead of
returning the offset of a containing sub-range. -/
theorem c7_seek_map_counterexample :
    coordinate_ranges (5 / 2) = [(0, 0, 792 / 5), (1, 792 / 5, 1584 / 5)] ∧
    (seekScan (coordinate_ranges (5 / 2)) 396 7 []).1 = 7 ∧
    (1584 : ℚ) / 5 < 396 := by
  have hcr : coordinate_ranges (5 / 2) = [(0, 0, 792 / 5), (1, 792 / 5, 1584 / 5)] := by
    unfold coordinate_ranges
    rw [pyRound_five_halves]
    norm_num [seekSegsAux]
  refine ⟨hcr, ?_, by norm_num⟩
  rw [hcr]
  simp only [seekScan, List.foldl_cons, List.foldl_nil]
  norm_num

/-- C7 (amended): for a track of positive integer duration `n`, the seek
map consists of exactly `round(n) = n` contiguous sub-ranges of equal width
`396/n`, the k-th labelled `k`, covering `0..396`; and for every click
coordinate `x ∈ [0, 396]` while playing, `set_track_position` sets the
progress to the offset of a sub-range containing `x` (the last containing
one when `x` lies on a shared boundary — bounds are inclusive on both
sides).  For non-integer durations the ranges stop at `round(d)·396/d ≠
396`, so full coverage of `0..396` holds only in this integer case. -/
theorem c7_seek_map_spec (n : ℕ) (hn : 1 ≤ n) (x : ℚ) (hx0 : 0 ≤ x) (hx1 : x ≤ 396)
    (s : PlayerState) (i : ℕ) (t : Track)
    (hnp : s.nowPlaying = some (i, t)) (hdur : t.duration = (n : ℚ))
    (hplay : s.is_playing = true) :
    coordinate_ranges (n : ℚ) = idealRanges n ∧
    (set_track_position x s).track_progress < n ∧
    ((set_track_position x s).track_progress : ℚ) * (396 / n) ≤ x ∧
    x ≤ (((set_track_position x s).track_progress : ℚ) + 1) * (396 / n) := by
  have hcr := coordinate_ranges_natCast n
  have hn0 : (0 : ℚ) < n := by
    have h1 : (1 : ℚ) ≤ (n : ℚ) := by exact_mod_cast hn
    linarith
  have hw : (0 : ℚ) < 396 / n := by positivity
  obtain ⟨k0, hk0n, hk0l, hk0r⟩ :
      ∃ k0, k0 < n ∧ (k0 : ℚ) * (396 / n) ≤ x ∧ x ≤ ((k0 : ℚ) + 1) * (396 / n) := by
    rcases le_or_lt (((n - 1 : ℕ) : ℚ) * (396 / n)) x with hcase | hcase
    · refine ⟨n - 1, by omega, hcase, ?_⟩
      have hcast : ((n - 1 : ℕ) : ℚ) = (n : ℚ) - 1 := by
        push_cast [hn]
        ring
      rw [hcast]
      have hfull : ((n : ℚ) - 1 + 1) * (396 / n) = 396 := by
        field_simp
      rw [hfull]
      exact hx1
    · set F := ⌊x / (396 / n)⌋ with hF
      have hfl : (0 : ℤ) ≤ F := Int.floor_nonneg.mpr (by positivity)
      have htn : ((F.toNat : ℕ) : ℚ) = (F : ℚ) := by
        exact_mod_cast congrArg (fun z : ℤ => (z : ℚ)) (Int.toNat_of_nonneg hfl)
      have hxw : x / (396 / n) < ((n - 1 : ℕ) : ℚ) := by
        rw [div_lt_iff hw]
        linarith
      have hflt : F < ((n - 1 : ℕ) : ℤ) := by
        rw [hF]
        exact Int.floor_lt.mpr (by exact_mod_cast hxw)
      refine ⟨F.toNat, by omega, ?_, ?_⟩
      · rw [htn]
        have hle : ((F : ℚ)) ≤ x / (396 / n) := Int.floor_le _
        calc (F : ℚ) * (396 / n) ≤ (x / (396 / n)) * (396 / n) := by
              exact mul_le_mul_of_nonneg_right hle (le_of_lt hw)
          _ = x := by field_simp
      · rw [htn]
        have hlt : x / (396 / n) < (F : ℚ) + 1 := Int.lt_floor_add_one _
        have hx2 : x < ((F : ℚ) + 1) * (396 / n) := by
          rw [← div_lt_iff hw]
          exact hlt
        exact le_of_lt hx2
  have hmem : ((k0, (k0 : ℚ) * (396 / n), ((k0 : ℚ) + 1) * (396 / n)) : ℕ × ℚ × ℚ)
      ∈ coordinate_ranges (n : ℚ) := by
    rw [hcr]
    exact List.mem_map.mpr ⟨k0, List.mem_range.mpr hk0n, rfl⟩
  have hcr2 : coordinate_ranges (n : ℚ)
      = (List.range n).map
          (fun k => ((k : ℕ), (k : ℚ) * (396 / n), ((k : ℚ) + 1) * (396 / n))) := hcr
  obtain ⟨r, hrmem, hrcond, hrfst⟩ :=
    seekScan_last_match (coordinate_ranges (n : ℚ)) x s.track_progress s.cmds
      ⟨_, hmem, hk0l, hk0r⟩
  rw [hcr2] at hrmem
  obtain ⟨k, hkrange, hkeq⟩ := List.mem_map.mp hrmem
  have hprog : (set_track_position x s).track_progress
      = (seekScan (coordinate_ranges t.duration) x s.track_progress s.cmds).1 := by
    unfold set_track_position
    rw [hnp]
    dsimp only
    rw [if_pos (show (0 ≤ x ∧ x ≤ 396) from ⟨hx0, hx1⟩)]
    simp [hplay]
  rw [← hkeq] at hrcond hrfst
  refine ⟨hcr, ?_, ?_, ?_⟩
  · rw [hprog, hdur, hrfst]
    exact List.mem_range.mp hkrange
  · rw [hprog, hdur, hrfst]
    exact hrcond.1
  · rw [hprog, hdur, hrfst]
    exact hrcond.2

/-- C7 witness: a 2-second track, click at x = 100. -/
theorem c7_witness :
    coordinate_ranges ((2 : ℕ) : ℚ) = idealRanges 2 ∧
    (set_track_position 100 sC7).track_progress < 2 ∧
    ((set_track_position 100 sC7).track_progress : ℚ) * (396 / (2 : ℕ)) ≤ 100 ∧
    (100 : ℚ) ≤ (((set_track_position 100 sC7).track_progress : ℚ) + 1) * (396 / (2 : ℕ)) :=
  c7_seek_map_spec 2 (by norm_num) 100 (by norm_num) (by norm_num) sC7 0 tC7
    rfl (by norm_num [tC7]) rfl

end RePlay
